import Mathlib

/-!
Shallow embedding of the SupportCraft-Pro document ingestion, embedding and
retrieval pipeline (backend), together with proofs of the behavioural
properties claimed in the specification.

Sources embedded here:
- `splitTextIntoChunks` (adminController / fileParser variants),
- `processDocumentAsync` and the retry helpers (adminController),
- `cosineSimilarity`, `validateEmbedding` and `findSimilarDocuments`
  (embeddingService / similarityService),
- `detectMessageType`, `getDefaultAnswer` and the empty-context slice of
  `generateChatResponse` (defaultAnswers / chatService.pdf),
- `incrementDocumentCount` / `decrementDocumentCount` (Tenant model).
-/

/-- Characters matched by the JavaScript regexp class `\s` (ASCII part;
the source only ever splits parsed document text on `/\s+/`). -/
def isJsWhitespace (c : Char) : Bool :=
  c = ' ' || c = '\t' || c = '\n' || c = '\r' || c = '\x0b' || c = '\x0c'

/-- Worker for `jsSplitWhitespace`: JavaScript `String.prototype.split(/\s+/)`
splits on maximal whitespace runs, yielding an empty string before a leading
run and after a trailing run, and `[""]` on the empty string.  `inWs` records
whether we are inside a whitespace run (the separator `\s+` is greedy), `cur`
accumulates the current token in reverse. -/
def splitWsAux : List Char → Bool → List Char → List (List Char)
  | [], inWs, cur => if inWs then [[]] else [cur.reverse]
  | c :: rest, inWs, cur =>
    if inWs then
      if isJsWhitespace c then splitWsAux rest true []
      else splitWsAux rest false [c]
    else
      if isJsWhitespace c then cur.reverse :: splitWsAux rest true []
      else splitWsAux rest false (c :: cur)

/-- JavaScript `text.split(/\s+/)`. -/
def jsSplitWhitespace (s : String) : List String :=
  (splitWsAux s.data false []).map (fun cs => ⟨cs⟩)

/-- Worker for the chunker loop of `splitTextIntoChunks`: accumulate words
into `cur`, flushing whenever `cur.length >= maxTokens`, and flush a final
non-empty partial chunk.  Chunks are returned as word lists (the source joins
them with a single space). -/
def chunkGo (maxTokens : Nat) : List String → List String → List (List String)
  | [], cur => if cur.isEmpty then [] else [cur]
  | w :: ws, cur =>
    let cur' := cur ++ [w]
    if maxTokens ≤ cur'.length then
      cur' :: chunkGo maxTokens ws []
    else
      chunkGo maxTokens ws cur'

namespace AdminController

/-- The chunks of `splitTextIntoChunks text maxTokens` as word lists, before
joining with `" "`. -/
def splitTextIntoChunksWords (text : String) (maxTokens : Nat) : List (List String) :=
  chunkGo maxTokens (jsSplitWhitespace text) []

/-- Function `splitTextIntoChunks` from `adminController.js`: split on `/\s+/`,
accumulate words until reaching `maxTokens`, join each chunk with a space. -/
def splitTextIntoChunks (text : String) (maxTokens : Nat) : List String :=
  (splitTextIntoChunksWords text maxTokens).map (String.intercalate " ")

end AdminController

namespace FileParser

/-- Function `splitTextIntoChunks` from `fileParser.js`: identical to the controller
variant except for the guard `if (!text || typeof text !== "string") return []`
(for a string argument, `!text` is true exactly on the empty string). -/
def splitTextIntoChunks (text : String) (maxTokens : Nat) : List String :=
  if text = "" then [] else AdminController.splitTextIntoChunks text maxTokens

end FileParser

/-- Processing states of a `Document` (`processingStatus` enum in the
Document schema). -/
inductive ProcessingStatus
  | pending
  | processing
  | completed
  | failed
deriving DecidableEq, Repr

/-- The slice of a `Document` record that `processDocumentAsync` mutates and
`getUploadStatus` reports: status, the two counters, and the error string. -/
structure DocState where
  processingStatus : ProcessingStatus
  chunkCount : Nat
  embeddingCount : Nat
  processingError : Option String
deriving DecidableEq, Repr

/-- Outcome of the external embedding calls, which the ingestion job cannot
control: for the batch starting at chunk offset `b`, `batchOk b = some k`
means `generateBatchEmbeddingsWithRetry` succeeded returning `k` embeddings
(`k` = `embeddings.length`, at most the batch size since empty texts are
filtered out), and `none` means its three attempts were exhausted;
`chunkOk i` tells whether the per-chunk fallback
`generateEmbeddingsWithRetry` succeeds for global chunk index `i`. -/
structure EmbedOracle where
  batchOk : Nat → Option Nat
  chunkOk : Nat → Bool

/-- Per-chunk fallback loop of `processDocumentAsync` (the inner `for` over a
failed batch): `start` is the global index of the next chunk, `len` the number
of chunks left in the batch, `processed` the running `processedChunks`
counter.  Returns the final counter together with the successive values saved
to `document.embeddingCount` (one save per successful chunk). -/
def fallbackChunks (o : EmbedOracle) : Nat → Nat → Nat → Nat × List Nat
  | _, 0, processed => (processed, [])
  | start, len + 1, processed =>
    if o.chunkOk start then
      let r := fallbackChunks o (start + 1) len (processed + 1)
      (r.1, (processed + 1) :: r.2)
    else
      fallbackChunks o (start + 1) len processed

/-- Batch loop of `processDocumentAsync`: batches of 50 chunks starting at
offsets 0, 50, 100, …; on batch success `processedChunks += embeddings.length`
and one progress save; on batch failure, fall back to per-chunk calls.
Returns the final `processedChunks` and the successive saved
`embeddingCount` values. -/
def processChunksFrom (o : EmbedOracle) (total batchIndex processed : Nat) :
    Nat × List Nat :=
  if _h : batchIndex < total then
    match o.batchOk batchIndex with
    | some k =>
      let p := processed + k
      let r := processChunksFrom o total (batchIndex + 50) p
      (r.1, p :: r.2)
    | none =>
      let len := min 50 (total - batchIndex)
      let fb := fallbackChunks o batchIndex len processed
      let r := processChunksFrom o total (batchIndex + 50) fb.1
      (r.1, fb.2 ++ r.2)
  else
    (processed, [])
termination_by total - batchIndex
decreasing_by
  · omega
  · omega

/-- Function `processDocumentAsync` from `adminController.js`, as the sequence of
`Document` states it saves (each `await document.save()`), in order; the
document is created by `uploadDocuments` in state `pending`.  The job sets
`processing`, chunks the content at 800 words, fails if there are zero
chunks, records `chunkCount`, runs the batches, and finally fails with
`"Failed to create any embeddings"` when `processedChunks === 0`, otherwise
completes. -/
def processDocumentAsync (content : String) (o : EmbedOracle) : List DocState :=
  let s0 : DocState := ⟨.pending, 0, 0, none⟩
  let s1 : DocState := ⟨.processing, 0, 0, none⟩
  let chunks := AdminController.splitTextIntoChunks content 800
  let n := chunks.length
  if n = 0 then
    [s0, s1, ⟨.failed, 0, 0, some "No content chunks generated from document"⟩]
  else
    let s2 : DocState := ⟨.processing, n, 0, none⟩
    let r := processChunksFrom o n 0 0
    let middle := r.2.map (fun c => (⟨.processing, n, c, none⟩ : DocState))
    if r.1 = 0 then
      s0 :: s1 :: s2 :: middle ++ [⟨.failed, n, 0, some "Failed to create any embeddings"⟩]
    else
      s0 :: s1 :: s2 :: middle ++ [⟨.completed, n, r.1, none⟩]

/-- The terminal `Document` state after `processDocumentAsync` finishes. -/
def finalDocState (content : String) (o : EmbedOracle) : DocState :=
  (processDocumentAsync content o).getLastD ⟨.pending, 0, 0, none⟩

/-- Retry loop shared by `generateEmbeddingsWithRetry` and
`generateBatchEmbeddingsWithRetry`: `call k` is the outcome of the `k`-th
attempt at the underlying service call (attempts are numbered from 1).
Returns the final outcome, the list of backoff delays (in ms) inserted before
each retry, and the number of the last attempt made. -/
def retryFrom {α : Type} (call : Nat → Except String α) (maxRetries attempt : Nat) :
    Except String α × List Nat × Nat :=
  match call attempt with
  | .ok v => (.ok v, [], attempt)
  | .error e =>
    if h : attempt < maxRetries then
      let d := min (1000 * 2 ^ (attempt - 1)) 5000
      let r := retryFrom call maxRetries (attempt + 1)
      (r.1, d :: r.2.1, r.2.2)
    else
      (.error e, [], attempt)
termination_by maxRetries - attempt

/-- Function `generateEmbeddingsWithRetry` from `adminController.js` (attempt
outcomes abstracted into `call`). -/
def generateEmbeddingsWithRetry {α : Type} (call : Nat → Except String α)
    (maxRetries : Nat) : Except String α × List Nat × Nat :=
  retryFrom call maxRetries 1

/-- Function `generateBatchEmbeddingsWithRetry` from `adminController.js`: textually
the same retry loop around the batch service call. -/
def generateBatchEmbeddingsWithRetry {α : Type} (call : Nat → Except String α)
    (maxRetries : Nat) : Except String α × List Nat × Nat :=
  retryFrom call maxRetries 1

namespace Tenant

/-- Method `incrementDocumentCount` from the Tenant model
(`this.subscription.currentDocuments += 1`). -/
def incrementDocumentCount (currentDocuments : ℤ) : ℤ :=
  currentDocuments + 1

/-- Method `decrementDocumentCount` from the Tenant model
(`if (currentDocuments > 0) currentDocuments -= 1`). -/
def decrementDocumentCount (currentDocuments : ℤ) : ℤ :=
  if currentDocuments > 0 then currentDocuments - 1 else currentDocuments

end Tenant

/-- Helper for `jsIncludes`: does `needle` occur as a contiguous
subsequence of the haystack? -/
def jsIncludesAux (needle : List Char) : List Char → Bool
  | [] => needle.isEmpty
  | c :: rest => needle.isPrefixOf (c :: rest) || jsIncludesAux needle rest

/-- JavaScript `s.includes(sub)`. -/
def jsIncludes (s sub : String) : Bool :=
  jsIncludesAux sub.data s.data

/-- JavaScript `s.startsWith(sub)`. -/
def jsStartsWith (s sub : String) : Bool :=
  sub.data.isPrefixOf s.data

/-- JavaScript `s.toLowerCase()` (character-wise lowering; the messages
involved are plain text). -/
def jsToLowerCase (s : String) : String :=
  ⟨s.data.map Char.toLower⟩

/-- The `notFound` entry of the module-level `defaultAnswers` object in
`config/defaultAnswers.js` (used directly by step 5 of
`generateChatResponse`). -/
def defaultAnswersNotFound : String :=
  "Sorry, I don\x27t have that information in the uploaded documents. Please contact our support team for assistance."

/-- Function `getDefaultAnswer` from `config/defaultAnswers.js`: the lookup table of
canned responses, defaulting to the `notFound` text. -/
def getDefaultAnswer (messageType : String) : String :=
  match messageType with
  | "greeting" => "Hello! How can I help you today?"
  | "help" => "I\x27m here to help! You can ask me about our products, services, or any other information you need."
  | "contact" => "For direct contact with our team, you can reach out through our support channels."
  | "pricing" => "I don\x27t have specific pricing information in the uploaded documents. Please contact our sales team for a personalized quote."
  | "technical" => "I don\x27t have specific technical information about that. Our technical support team would be happy to assist you."
  | "account" => "I don\x27t have specific account information in the uploaded documents. Please contact our support team for account assistance."
  | "thanks" => "You\x27re very welcome! I\x27m glad I could help. Is there anything else you\x27d like to know?"
  | "goodbye" => "Goodbye! It was great helping you today. Feel free to come back anytime if you have more questions."
  | "fallback" => "I don\x27t have specific information about that. Please contact support for more details."
  | "notFound" => defaultAnswersNotFound
  | _ => defaultAnswersNotFound

/-- Function `detectMessageType` from `config/defaultAnswers.js`: classify the
lowercased message by a fixed cascade of substring checks. -/
def detectMessageType (userMessage : String) : String :=
  let message := jsToLowerCase userMessage
  if jsIncludes message "hello" || message = "hi" || jsStartsWith message "hi " ||
      message = "hey" || jsStartsWith message "hey " ||
      jsIncludes message "good morning" || jsIncludes message "good afternoon" ||
      jsIncludes message "good evening" then
    "greeting"
  else if jsIncludes message "help" || jsIncludes message "support" ||
      jsIncludes message "assistance" then
    "help"
  else if jsIncludes message "contact" || jsIncludes message "phone" ||
      jsIncludes message "email" || jsIncludes message "reach" ||
      jsIncludes message "speak to" then
    "contact"
  else if jsIncludes message "price" || jsIncludes message "cost" ||
      jsIncludes message "fee" || jsIncludes message "how much" ||
      jsIncludes message "pricing" then
    "pricing"
  else if jsIncludes message "technical" || jsIncludes message "troubleshoot" ||
      jsIncludes message "problem" || jsIncludes message "issue" ||
      jsIncludes message "error" then
    "technical"
  else if jsIncludes message "account" || jsIncludes message "login" ||
      jsIncludes message "password" || jsIncludes message "sign in" ||
      jsIncludes message "register" then
    "account"
  else if jsIncludes message "thank" || jsIncludes message "thanks" ||
      jsIncludes message "appreciate" then
    "thanks"
  else if jsIncludes message "bye" || jsIncludes message "goodbye" ||
      jsIncludes message "see you" || jsIncludes message "farewell" then
    "goodbye"
  else
    "notFound"

/-- Result shape of `generateChatResponse` (`chatService.pdf.js`); the token
usage bookkeeping, model name and timestamp are omitted as inert metadata. -/
structure ChatResponse where
  message : String
  confidence : ℚ
  source : String
  messageType : String
deriving DecidableEq, Repr

/-- The list literal `["greeting", "thanks", "goodbye"]` used by step 2 of
`generateChatResponse`. -/
def pureConversationalTypes : List String :=
  ["greeting", "thanks", "goodbye"]

/-- Function `generateChatResponse(userMessage, context)` from `chatService.pdf.js`,
specialized to an empty `context` (the grounding engine invoked with zero
retrieval matches).  With `context = ""`, the step-2 guard
`!context || context.trim().length === 0` is true and the step-3 guard
`context && context.trim().length > 0` is false, so the function returns the
conversational default (confidence 0.8) for a pure conversational message
type and otherwise falls through to step 5, the `notFound` default
(confidence 0.3). -/
def generateChatResponseEmptyContext (userMessage : String) : ChatResponse :=
  let messageType := detectMessageType userMessage
  let isPureConversational := pureConversationalTypes.contains messageType
  if isPureConversational then
    ⟨getDefaultAnswer messageType, 0.8, "default", messageType⟩
  else
    ⟨defaultAnswersNotFound, 0.3, "default", "notFound"⟩

namespace EmbeddingService

/-- Function `getEmbeddingDimension` from `embeddingService.js`:
`text-embedding-3-small` has 1536 dimensions. -/
def getEmbeddingDimension : Nat := 1536

/-- Function `validateEmbedding` from `embeddingService.js`: an embedding is valid iff
it is an array of exactly `getEmbeddingDimension` numbers (the source also
rejects `NaN` entries, which have no counterpart in `ℝ`). -/
def validateEmbedding (embedding : List ℝ) : Bool :=
  embedding.length == getEmbeddingDimension

/-- The dot-product loop of `cosineSimilarity`. -/
def dotProduct (a b : List ℝ) : ℝ :=
  (List.zipWith (· * ·) a b).sum

/-- The squared-norm accumulation of `cosineSimilarity`
(`norm += e[i] * e[i]` before the final `Math.sqrt`). -/
def sumSquares (a : List ℝ) : ℝ :=
  (a.map (fun x => x * x)).sum

/-- Function `cosineSimilarity` from `embeddingService.js` (the mock service has a
character-for-character identical copy): throw on invalid embeddings, return
0 when either norm is 0, else the normalized dot product. -/
noncomputable def cosineSimilarity (embedding1 embedding2 : List ℝ) :
    Except String ℝ :=
  if !validateEmbedding embedding1 || !validateEmbedding embedding2 then
    .error "Invalid embeddings provided"
  else
    let norm1 := Real.sqrt (sumSquares embedding1)
    let norm2 := Real.sqrt (sumSquares embedding2)
    if norm1 = 0 ∨ norm2 = 0 then
      .ok 0
    else
      .ok (dotProduct embedding1 embedding2 / (norm1 * norm2))

end EmbeddingService

/-- One stored embedding row as fetched by `findSimilarDocuments`
(`similarityService.js`): the Mongo `_id` is abstracted to a `Nat`, and only
the fields the ranker reads are kept. -/
structure EmbeddingRecord where
  id : Nat
  text : String
  embedding : List ℝ

namespace SimilarityService

/-- The body of the `embeddings.map` in `findSimilarDocuments`: score one
candidate, catching any `cosineSimilarity` error and scoring 0 instead
(`catch (error) { return { embedding, similarity: 0 } }`). -/
noncomputable def scoreCandidate (queryEmbedding : List ℝ) (e : EmbeddingRecord) :
    EmbeddingRecord × ℝ :=
  match EmbeddingService.cosineSimilarity queryEmbedding e.embedding with
  | .ok s => (e, s)
  | .error _ => (e, 0)

/-- The `similarities` array of `findSimilarDocuments`. -/
noncomputable def similarities (queryEmbedding : List ℝ)
    (embeddings : List EmbeddingRecord) : List (EmbeddingRecord × ℝ) :=
  embeddings.map (scoreCandidate queryEmbedding)

/-- The `filteredResults` array of `findSimilarDocuments`
(`similarities.filter(item => item.similarity >= minSimilarity)`). -/
noncomputable def filteredResults (queryEmbedding : List ℝ)
    (embeddings : List EmbeddingRecord) (minSimilarity : ℝ) :
    List (EmbeddingRecord × ℝ) :=
  (similarities queryEmbedding embeddings).filter fun item =>
    decide (minSimilarity ≤ item.2)

/-- The `sortedResults` array before `.slice(0, limit)`: JavaScript
`Array.prototype.sort` is stable and the comparator
`(a, b) => b.similarity - a.similarity` orders by descending similarity, so
it is modelled by a stable merge sort with `le a b := b.similarity ≤
a.similarity`. -/
noncomputable def sortedResults (queryEmbedding : List ℝ)
    (embeddings : List EmbeddingRecord) (minSimilarity : ℝ) :
    List (EmbeddingRecord × ℝ) :=
  (filteredResults queryEmbedding embeddings minSimilarity).mergeSort
    fun a b => decide (b.2 ≤ a.2)

/-- Function `findSimilarDocuments` from `similarityService.js`, applied to the list
of active embeddings fetched for the tenant: score every candidate, filter by
`minSimilarity`, sort descending by similarity (stable), and truncate to
`limit` entries. -/
noncomputable def findSimilarDocuments (queryEmbedding : List ℝ)
    (embeddings : List EmbeddingRecord) (limit : Nat) (minSimilarity : ℝ) :
    List (EmbeddingRecord × ℝ) :=
  (sortedResults queryEmbedding embeddings minSimilarity).take limit

end SimilarityService

/-! ### Helper lemmas about the chunker -/

/-- On a nonempty all-whitespace suffix, the splitter in whitespace state
produces exactly the trailing empty token. -/
theorem splitWsAux_all_ws_true (cs : List Char)
    (h : ∀ c ∈ cs, isJsWhitespace c = true) :
    splitWsAux cs true [] = [[]] := by
  induction cs with
  | nil => rfl
  | cons c rest ih =>
    have hc : isJsWhitespace c = true := h c (by simp)
    simp only [splitWsAux, if_pos rfl, hc, if_true]
    exact ih fun x hx => h x (by simp [hx])

/-- JavaScript `split(/\s+/)` on a nonempty all-whitespace string yields
`["", ""]`. -/
theorem jsSplitWhitespace_all_ws (t : String) (hne : t ≠ "")
    (h : ∀ c ∈ t.data, isJsWhitespace c = true) :
    jsSplitWhitespace t = ["", ""] := by
  unfold jsSplitWhitespace
  have hdata : t.data ≠ [] := by
    intro hdn
    apply hne
    cases t with
    | mk d =>
      simp only at hdn
      subst hdn
      rfl
  cases hd : t.data with
  | nil => exact absurd hd hdata
  | cons c rest =>
    have hc : isJsWhitespace c = true := h c (by simp [hd])
    have hrest : ∀ x ∈ rest, isJsWhitespace x = true := by
      intro x hx
      exact h x (by simp [hd, hx])
    simp only [splitWsAux, hc, if_true, if_false, Bool.false_eq_true,
      splitWsAux_all_ws_true rest hrest]
    rfl

/-- The chunker loop never returns an empty chunk list when there is at
least one word. -/
theorem chunkGo_cons_ne_nil (m : Nat) (ws : List String) :
    ∀ (w : String) (cur : List String), chunkGo m (w :: ws) cur ≠ [] := by
  induction ws with
  | nil =>
    intro w cur
    show (if m ≤ (cur ++ [w]).length then (cur ++ [w]) :: chunkGo m [] []
        else chunkGo m [] (cur ++ [w])) ≠ []
    split
    · exact List.cons_ne_nil _ _
    · show (if (cur ++ [w]).isEmpty then ([] : List (List String))
          else [cur ++ [w]]) ≠ []
      rw [if_neg (by simp)]
      exact List.cons_ne_nil _ _
  | cons a b ih =>
    intro w cur
    show (if m ≤ (cur ++ [w]).length then (cur ++ [w]) :: chunkGo m (a :: b) []
        else chunkGo m (a :: b) (cur ++ [w])) ≠ []
    split
    · exact List.cons_ne_nil _ _
    · exact ih a (cur ++ [w])

/-- Every chunk emitted by the chunker loop holds at most `m` words, as long
as the running chunk is still below `m` words. -/
theorem chunkGo_length_le (m : Nat) (hm : 0 < m) (ws : List String) :
    ∀ cur, cur.length < m → ∀ c ∈ chunkGo m ws cur, c.length ≤ m := by
  induction ws with
  | nil =>
    intro cur hcur c hc
    rw [show chunkGo m [] cur = if cur.isEmpty then [] else [cur] from rfl] at hc
    by_cases he : cur.isEmpty
    · rw [if_pos he] at hc
      exact absurd hc (List.not_mem_nil c)
    · rw [if_neg he] at hc
      rw [List.mem_singleton] at hc
      exact hc ▸ Nat.le_of_lt hcur
  | cons w ws' ih =>
    intro cur hcur c hc
    rw [show chunkGo m (w :: ws') cur =
        if m ≤ (cur ++ [w]).length then (cur ++ [w]) :: chunkGo m ws' []
        else chunkGo m ws' (cur ++ [w]) from rfl] at hc
    have hlen : (cur ++ [w]).length = cur.length + 1 := by simp
    by_cases hflush : m ≤ (cur ++ [w]).length
    · rw [if_pos hflush] at hc
      rcases List.mem_cons.mp hc with h1 | h2
      · subst h1
        omega
      · exact ih [] (by simpa using hm) c h2
    · rw [if_neg hflush] at hc
      exact ih (cur ++ [w]) (by omega) c hc

/-! ### C2 — chunking of empty / whitespace-only input -/

/-- C2 counterexample: the whitespace-only text `" "` with max word count 800
yields one chunk (the single space), not zero chunks, in both chunker
variants; the claim asserts zero chunks for every such input. -/
theorem claim2_counterexample :
    FileParser.splitTextIntoChunks " " 800 = [" "] ∧
    AdminController.splitTextIntoChunks " " 800 = [" "] ∧
    (FileParser.splitTextIntoChunks " " 800).length ≠ 0 := by
  decide

/-- C2 (amended): for every positive max word count, the `fileParser` chunker
returns zero chunks on the empty string (its `!text` guard), but the
`adminController` chunker returns the single empty chunk `[""]` there, and on
nonempty whitespace-only input both variants agree and return at least one
chunk (`split(/\s+/)` produces two empty words, never zero). -/
theorem claim2_empty_whitespace_chunks :
    ∀ (t : String) (m : Nat), 0 < m →
      FileParser.splitTextIntoChunks "" m = [] ∧
      AdminController.splitTextIntoChunks "" m = [""] ∧
      (t ≠ "" → (∀ c ∈ t.data, isJsWhitespace c = true) →
        FileParser.splitTextIntoChunks t m = AdminController.splitTextIntoChunks t m ∧
        AdminController.splitTextIntoChunks t m ≠ []) := by
  intro t m hm
  refine ⟨rfl, ?_, ?_⟩
  · -- the empty string splits into the single empty word [""]
    have hwords : jsSplitWhitespace "" = [""] := rfl
    unfold AdminController.splitTextIntoChunks AdminController.splitTextIntoChunksWords
    rw [hwords]
    unfold chunkGo
    by_cases h1 : m ≤ ([] ++ [""] : List String).length
    · have : m = 1 := by simp at h1; omega
      subst this
      rfl
    · rw [if_neg h1]
      rfl
  · intro hne hws
    constructor
    · unfold FileParser.splitTextIntoChunks
      rw [if_neg hne]
    · unfold AdminController.splitTextIntoChunks AdminController.splitTextIntoChunksWords
      rw [jsSplitWhitespace_all_ws t hne hws]
      have := chunkGo_cons_ne_nil m [""] "" []
      simpa using this

/-- C2 witness: the amended statement applied to the whitespace-only text
`" "` at max word count 800. -/
theorem claim2_witness :
    FileParser.splitTextIntoChunks " " 800 = AdminController.splitTextIntoChunks " " 800 ∧
    AdminController.splitTextIntoChunks " " 800 ≠ [] :=
  (claim2_empty_whitespace_chunks " " 800 (by decide)).2.2 (by decide) (by decide)

/-! ### C9 — chunking determinism and the word-count bound -/

/-- C9: chunking is a pure function — chunking the same document twice yields
the same chunk sequence — and for a positive max word count `m`, every
produced chunk (the final one included) is built from at most `m` words. -/
theorem claim9_chunking_deterministic_and_bounded :
    ∀ (t : String) (m : Nat), 0 < m →
      AdminController.splitTextIntoChunks t m = AdminController.splitTextIntoChunks t m ∧
      AdminController.splitTextIntoChunks t m =
        (AdminController.splitTextIntoChunksWords t m).map (String.intercalate " ") ∧
      ∀ c ∈ AdminController.splitTextIntoChunksWords t m, c.length ≤ m := by
  intro t m hm
  refine ⟨rfl, rfl, ?_⟩
  exact chunkGo_length_le m hm (jsSplitWhitespace t) [] (by simpa using hm)

/-- C9 witness: the text `"a b c"` chunked at 2 words per chunk. -/
theorem claim9_witness :
    AdminController.splitTextIntoChunks "a b c" 2 = AdminController.splitTextIntoChunks "a b c" 2 ∧
    AdminController.splitTextIntoChunks "a b c" 2 =
      (AdminController.splitTextIntoChunksWords "a b c" 2).map (String.intercalate " ") ∧
    ∀ c ∈ AdminController.splitTextIntoChunksWords "a b c" 2, c.length ≤ 2 :=
  claim9_chunking_deterministic_and_bounded "a b c" 2 (by decide)

/-! ### C10 — tenant document counter invariant -/

/-- C10: starting from a nonnegative `subscription.currentDocuments`,
`decrementDocumentCount` leaves zero unchanged and otherwise subtracts
exactly one, so both counter operations preserve `currentDocuments ≥ 0`. -/
theorem claim10_document_count_invariant :
    ∀ c : ℤ, 0 ≤ c →
      (c = 0 → Tenant.decrementDocumentCount c = c) ∧
      (0 < c → Tenant.decrementDocumentCount c = c - 1) ∧
      0 ≤ Tenant.decrementDocumentCount c ∧
      0 ≤ Tenant.incrementDocumentCount c := by
  intro c hc
  unfold Tenant.decrementDocumentCount Tenant.incrementDocumentCount
  refine ⟨?_, ?_, ?_, ?_⟩
  · intro h0
    rw [if_neg (by omega)]
  · intro hpos
    rw [if_pos hpos]
  · by_cases h : c > 0
    · rw [if_pos h]; omega
    · rw [if_neg h]; omega
  · omega

/-- C10 witness: the counter operations evaluated at `currentDocuments = 1`. -/
theorem claim10_witness :
    (1 = (0 : ℤ) → Tenant.decrementDocumentCount 1 = 1) ∧
    ((0 : ℤ) < 1 → Tenant.decrementDocumentCount 1 = 1 - 1) ∧
    0 ≤ Tenant.decrementDocumentCount 1 ∧
    0 ≤ Tenant.incrementDocumentCount 1 :=
  claim10_document_count_invariant 1 (by decide)

/-! ### C8 — retry policy of the embedding calls -/

/-- Unfolding and behaviour of the retry loop, by induction on the remaining
attempts: the last attempt number stays between the starting attempt and
`maxRetries`, the `j`-th inserted backoff delay is
`min(1000 * 2^(startingAttempt - 1 + j), 5000)` ms, and if every attempt
fails, the loop propagates the error of attempt `maxRetries`. -/
theorem retryFrom_spec {α : Type} (call : Nat → Except String α) (mr : Nat) :
    ∀ (n a : Nat), mr - a ≤ n → 1 ≤ a → a ≤ mr →
      (a ≤ (retryFrom call mr a).2.2 ∧ (retryFrom call mr a).2.2 ≤ mr) ∧
      (∀ j d, (retryFrom call mr a).2.1[j]? = some d →
        d = min (1000 * 2 ^ (a - 1 + j)) 5000) ∧
      ((∀ k, a ≤ k → k ≤ mr → ∃ e, call k = Except.error e) →
        (retryFrom call mr a).1 = call mr) := by
  intro n
  induction n with
  | zero =>
    intro a hn h1 hle
    have ha : a = mr := by omega
    cases hcall : call a with
    | ok v =>
      have hr : retryFrom call mr a = (Except.ok v, [], a) := by
        rw [retryFrom.eq_def, hcall]
      rw [hr]
      refine ⟨⟨le_refl a, hle⟩, ?_, ?_⟩
      · intro j d hj
        simp at hj
      · intro hfail
        rcases hfail a (le_refl a) hle with ⟨e, he⟩
        rw [hcall] at he
        exact absurd he (by simp)
    | error e =>
      have hr : retryFrom call mr a = (Except.error e, [], a) := by
        rw [retryFrom.eq_def, hcall]
        exact dif_neg (by omega)
      rw [hr]
      refine ⟨⟨le_refl a, hle⟩, ?_, ?_⟩
      · intro j d hj
        simp at hj
      · intro _
        rw [← ha, hcall]
  | succ n ih =>
    intro a hn h1 hle
    cases hcall : call a with
    | ok v =>
      have hr : retryFrom call mr a = (Except.ok v, [], a) := by
        rw [retryFrom.eq_def, hcall]
      rw [hr]
      refine ⟨⟨le_refl a, hle⟩, ?_, ?_⟩
      · intro j d hj
        simp at hj
      · intro hfail
        rcases hfail a (le_refl a) hle with ⟨e, he⟩
        rw [hcall] at he
        exact absurd he (by simp)
    | error e =>
      by_cases hlt : a < mr
      · have hr : retryFrom call mr a =
            ((retryFrom call mr (a + 1)).1,
              min (1000 * 2 ^ (a - 1)) 5000 :: (retryFrom call mr (a + 1)).2.1,
              (retryFrom call mr (a + 1)).2.2) := by
          rw [retryFrom.eq_def, hcall]
          exact dif_pos hlt
        have hih := ih (a + 1) (by omega) (by omega) (by omega)
        rw [hr]
        refine ⟨⟨?_, hih.1.2⟩, ?_, ?_⟩
        · exact Nat.le_of_succ_le hih.1.1
        · intro j d hj
          cases j with
          | zero =>
            simp only [List.getElem?_cons_zero, Option.some_inj] at hj
            rw [← hj]
            have he : a - 1 + 0 = a - 1 := by omega
            rw [he]
          | succ j' =>
            simp only [List.getElem?_cons_succ] at hj
            have h2 := hih.2.1 j' d hj
            have he : a + 1 - 1 + j' = a - 1 + (j' + 1) := by omega
            rw [he] at h2
            exact h2
        · intro hfail
          exact hih.2.2 fun k hk1 hk2 => hfail k (by omega) hk2
      · have ha : a = mr := by omega
        have hr : retryFrom call mr a = (Except.error e, [], a) := by
          rw [retryFrom.eq_def, hcall]
          exact dif_neg hlt
        rw [hr]
        refine ⟨⟨le_refl a, hle⟩, ?_, ?_⟩
        · intro j d hj
          simp at hj
        · intro _
          rw [← ha, hcall]

/-- C8: with the default `maxRetries = 3`, both `generateEmbeddingsWithRetry`
and `generateBatchEmbeddingsWithRetry` make between 1 and 3 attempts, the
delay inserted before retry attempt `k+1` (the `j = k-1`-th delay, 0-based)
is `min(1000 * 2^(k-1), 5000)` ms, and when all attempts fail the error of
the last (third) attempt is propagated to the caller. -/
theorem claim8_retry_policy {α : Type} (call : Nat → Except String α) :
    (1 ≤ (generateEmbeddingsWithRetry call 3).2.2 ∧
      (generateEmbeddingsWithRetry call 3).2.2 ≤ 3) ∧
    (∀ j d, (generateEmbeddingsWithRetry call 3).2.1[j]? = some d →
      d = min (1000 * 2 ^ j) 5000) ∧
    ((∀ k, 1 ≤ k → k ≤ 3 → ∃ e, call k = Except.error e) →
      (generateEmbeddingsWithRetry call 3).1 = call 3) ∧
    (1 ≤ (generateBatchEmbeddingsWithRetry call 3).2.2 ∧
      (generateBatchEmbeddingsWithRetry call 3).2.2 ≤ 3) ∧
    (∀ j d, (generateBatchEmbeddingsWithRetry call 3).2.1[j]? = some d →
      d = min (1000 * 2 ^ j) 5000) ∧
    ((∀ k, 1 ≤ k → k ≤ 3 → ∃ e, call k = Except.error e) →
      (generateBatchEmbeddingsWithRetry call 3).1 = call 3) := by
  have h := retryFrom_spec call 3 2 1 (by omega) (by omega) (by omega)
  refine ⟨h.1, ?_, h.2.2, h.1, ?_, h.2.2⟩ <;>
    · intro j d hj
      have := h.2.1 j d hj
      simpa using this

/-- C8 witness: a call that fails on every attempt; the loop stops after
attempt 3 and surfaces the error. -/
theorem claim8_witness :
    (generateEmbeddingsWithRetry (fun _ => (Except.error "boom" : Except String Nat)) 3).1 =
      Except.error "boom" ∧
    (generateBatchEmbeddingsWithRetry (fun _ => (Except.error "boom" : Except String Nat)) 3).1 =
      Except.error "boom" ∧
    1 ≤ (generateEmbeddingsWithRetry (fun _ => (Except.error "boom" : Except String Nat)) 3).2.2 ∧
    (generateEmbeddingsWithRetry (fun _ => (Except.error "boom" : Except String Nat)) 3).2.2 ≤ 3 := by
  have h := claim8_retry_policy (fun _ => (Except.error "boom" : Except String Nat))
  exact ⟨h.2.2.1 fun k _ _ => ⟨"boom", rfl⟩,
    h.2.2.2.2.2 fun k _ _ => ⟨"boom", rfl⟩, h.1.1, h.1.2⟩

/-! ### C4 — grounding engine on zero retrieval matches -/

/-- C4 counterexample: with zero retrieval matches (empty context), the query
`"hello"` does not receive the canned not-found message with confidence 0.3;
it receives the conversational greeting default with confidence 0.8. -/
theorem claim4_counterexample :
    generateChatResponseEmptyContext "hello" =
      ⟨getDefaultAnswer "greeting", 0.8, "default", "greeting"⟩ ∧
    (generateChatResponseEmptyContext "hello").message ≠ defaultAnswersNotFound ∧
    (generateChatResponseEmptyContext "hello").confidence ≠ 0.3 := by
  refine ⟨rfl, by decide, ?_⟩
  show (0.8 : ℚ) ≠ 0.3
  norm_num

/-- C4 (amended): with zero retrieval matches (empty context), the grounding
engine returns the canned not-found message with confidence 0.3 for every
query whose detected type is not pure conversational; queries detected as
greeting, thanks or goodbye instead receive their canned conversational
default with confidence 0.8. -/
theorem claim4_empty_context_fallback :
    ∀ userMessage : String,
      (pureConversationalTypes.contains (detectMessageType userMessage) = true →
        generateChatResponseEmptyContext userMessage =
          ⟨getDefaultAnswer (detectMessageType userMessage), 0.8, "default",
            detectMessageType userMessage⟩) ∧
      (pureConversationalTypes.contains (detectMessageType userMessage) = false →
        generateChatResponseEmptyContext userMessage =
          ⟨defaultAnswersNotFound, 0.3, "default", "notFound"⟩) := by
  intro m
  refine ⟨fun h => ?_, fun h => ?_⟩
  · simp only [generateChatResponseEmptyContext]
    rw [if_pos h]
  · simp only [generateChatResponseEmptyContext]
    rw [if_neg (by rw [h]; exact Bool.false_ne_true)]

/-- C4 witness: the amended statement applied to a content question with
empty context (not-found path) — the query is classified `notFound`. -/
theorem claim4_witness :
    generateChatResponseEmptyContext "what is the weather" =
      ⟨defaultAnswersNotFound, 0.3, "default", "notFound"⟩ :=
  (claim4_empty_context_fallback "what is the weather").2 (by decide)

/-! ### Helper lemmas about the ingestion batch loop -/

/-- Prepending a smaller counter to a nondecreasing save trace keeps it
nondecreasing and keeps its last element. -/
theorem chainCons (p q : Nat) (tr : List Nat) (last : Nat) (hpq : p ≤ q)
    (h1 : List.Chain' (· ≤ ·) (q :: tr)) (h2 : (q :: tr).getLast? = some last) :
    List.Chain' (· ≤ ·) (p :: q :: tr) ∧ (p :: q :: tr).getLast? = some last :=
  ⟨List.chain'_cons.mpr ⟨hpq, h1⟩, by rw [List.getLast?_cons_cons]; exact h2⟩

/-- Glueing two nondecreasing save traces, the second starting at the final
counter of the first. -/
theorem chainGlue (p : Nat) (fb r : Nat × List Nat)
    (hf1 : List.Chain' (· ≤ ·) (p :: fb.2))
    (hf2 : (p :: fb.2).getLast? = some fb.1)
    (h1 : List.Chain' (· ≤ ·) (fb.1 :: r.2))
    (h2 : (fb.1 :: r.2).getLast? = some r.1) :
    List.Chain' (· ≤ ·) (p :: (fb.2 ++ r.2)) ∧
      (p :: (fb.2 ++ r.2)).getLast? = some r.1 := by
  have hsplit : p :: (fb.2 ++ r.2) = (p :: fb.2) ++ r.2 := rfl
  constructor
  · rw [hsplit]
    refine List.Chain'.append hf1 h1.tail ?_
    intro x hx y hy
    rw [hf2] at hx
    simp only [Option.mem_def, Option.some_inj] at hx
    subst hx
    exact (List.chain'_cons'.mp h1).1 y hy
  · cases hr2 : r.2 with
    | nil =>
      have h2' := h2
      rw [hr2] at h2'
      simp only [List.getLast?_singleton, Option.some_inj] at h2'
      rw [List.append_nil, hf2, h2']
    | cons z zs =>
      have h2' := h2
      rw [hr2, List.getLast?_cons_cons] at h2'
      show ((p :: fb.2) ++ z :: zs).getLast? = some r.1
      rw [List.getLast?_append_cons]
      exact h2'

/-- The fallback loop yields a nondecreasing sequence of saved counters, whose
last value is the final counter. -/
theorem fallbackChunks_chain (o : EmbedOracle) :
    ∀ (len start processed : Nat),
      List.Chain' (· ≤ ·) (processed :: (fallbackChunks o start len processed).2) ∧
      (processed :: (fallbackChunks o start len processed).2).getLast? =
        some (fallbackChunks o start len processed).1 := by
  intro len
  induction len with
  | zero =>
    intro start processed
    exact ⟨List.chain'_singleton _, rfl⟩
  | succ l ih =>
    intro start processed
    have hstep : fallbackChunks o start (l + 1) processed =
        (if o.chunkOk start then
          ((fallbackChunks o (start + 1) l (processed + 1)).1,
            (processed + 1) :: (fallbackChunks o (start + 1) l (processed + 1)).2)
        else fallbackChunks o (start + 1) l processed) := rfl
    by_cases hcb : o.chunkOk start
    · rw [hstep, if_pos hcb]
      have h := ih (start + 1) (processed + 1)
      exact chainCons processed (processed + 1) _ _ (Nat.le_succ _) h.1 h.2
    · rw [hstep, if_neg hcb]
      exact ih (start + 1) processed

/-- If every per-chunk fallback fails, the fallback loop saves nothing and
leaves the counter unchanged. -/
theorem fallbackChunks_all_fail (o : EmbedOracle) (hc : ∀ i, o.chunkOk i = false) :
    ∀ (len start processed : Nat),
      fallbackChunks o start len processed = (processed, []) := by
  intro len
  induction len with
  | zero => intro start processed; rfl
  | succ l ih =>
    intro start processed
    have hstep : fallbackChunks o start (l + 1) processed =
        (if o.chunkOk start then
          ((fallbackChunks o (start + 1) l (processed + 1)).1,
            (processed + 1) :: (fallbackChunks o (start + 1) l (processed + 1)).2)
        else fallbackChunks o (start + 1) l processed) := rfl
    rw [hstep, hc start]
    simpa using ih (start + 1) processed

/-- The batch loop yields a nondecreasing sequence of saved counters whose
last value is the final `processedChunks`. -/
theorem processChunksFrom_chain (o : EmbedOracle) (total : Nat) :
    ∀ (n batchIndex processed : Nat), total - batchIndex ≤ n →
      List.Chain' (· ≤ ·) (processed :: (processChunksFrom o total batchIndex processed).2) ∧
      (processed :: (processChunksFrom o total batchIndex processed).2).getLast? =
        some (processChunksFrom o total batchIndex processed).1 := by
  intro n
  induction n with
  | zero =>
    intro bi p hn
    have hr : processChunksFrom o total bi p = (p, []) := by
      rw [processChunksFrom.eq_def]
      exact dif_neg (by omega)
    rw [hr]
    exact ⟨List.chain'_singleton _, rfl⟩
  | succ n ih =>
    intro bi p hn
    by_cases hlt : bi < total
    · cases hb : o.batchOk bi with
      | some k =>
        have hr : processChunksFrom o total bi p =
            ((processChunksFrom o total (bi + 50) (p + k)).1,
              (p + k) :: (processChunksFrom o total (bi + 50) (p + k)).2) := by
          rw [processChunksFrom.eq_def, dif_pos hlt, hb]
        have h := ih (bi + 50) (p + k) (by omega)
        rw [hr]
        exact chainCons p (p + k) _ _ (Nat.le_add_right _ _) h.1 h.2
      | none =>
        have hr : processChunksFrom o total bi p =
            ((processChunksFrom o total (bi + 50)
                (fallbackChunks o bi (min 50 (total - bi)) p).1).1,
              (fallbackChunks o bi (min 50 (total - bi)) p).2 ++
                (processChunksFrom o total (bi + 50)
                  (fallbackChunks o bi (min 50 (total - bi)) p).1).2) := by
          rw [processChunksFrom.eq_def, dif_pos hlt, hb]
        have hf := fallbackChunks_chain o (min 50 (total - bi)) bi p
        have h := ih (bi + 50) (fallbackChunks o bi (min 50 (total - bi)) p).1 (by omega)
        rw [hr]
        exact chainGlue p (fallbackChunks o bi (min 50 (total - bi)) p)
          (processChunksFrom o total (bi + 50)
            (fallbackChunks o bi (min 50 (total - bi)) p).1)
          hf.1 hf.2 h.1 h.2
    · have hr : processChunksFrom o total bi p = (p, []) := by
        rw [processChunksFrom.eq_def]
        exact dif_neg hlt
      rw [hr]
      exact ⟨List.chain'_singleton _, rfl⟩

/-- If every batch call and every per-chunk fallback fails, the batch loop
saves nothing and ends with `processedChunks` unchanged. -/
theorem processChunksFrom_all_fail (o : EmbedOracle) (total : Nat)
    (hb : ∀ b, o.batchOk b = none) (hc : ∀ i, o.chunkOk i = false) :
    ∀ (n batchIndex processed : Nat), total - batchIndex ≤ n →
      processChunksFrom o total batchIndex processed = (processed, []) := by
  intro n
  induction n with
  | zero =>
    intro bi p hn
    rw [processChunksFrom.eq_def]
    exact dif_neg (by omega)
  | succ n ih =>
    intro bi p hn
    by_cases hlt : bi < total
    · have hr : processChunksFrom o total bi p =
          ((processChunksFrom o total (bi + 50)
              (fallbackChunks o bi (min 50 (total - bi)) p).1).1,
            (fallbackChunks o bi (min 50 (total - bi)) p).2 ++
              (processChunksFrom o total (bi + 50)
                (fallbackChunks o bi (min 50 (total - bi)) p).1).2) := by
        rw [processChunksFrom.eq_def, dif_pos hlt, hb]
      rw [hr, fallbackChunks_all_fail o hc (min 50 (total - bi)) bi p]
      rw [ih (bi + 50) p (by omega)]
      rfl
    · rw [processChunksFrom.eq_def]
      exact dif_neg hlt

/-- The last saved state of an ingestion trace of the shape
`s0 :: s1 :: s2 :: middle ++ [final]`. -/
theorem getLastD_trace (a b c f d : DocState) (mid : List DocState) :
    (a :: b :: c :: (mid ++ [f])).getLastD d = f := by
  rw [show a :: b :: c :: (mid ++ [f]) = (a :: b :: c :: mid) ++ [f] from by simp]
  exact List.getLastD_concat _ _ _

/-! ### C1 — completion requires at least one successful embedding -/

/-- C1: `processDocumentAsync` reaches the terminal state `completed` only
when at least one chunk was embedded successfully (`embeddingCount > 0`), and
if chunk generation yields chunks but every batch call and every per-chunk
fallback fails, the job ends `failed` with the recorded error
`"Failed to create any embeddings"` — never `completed`. -/
theorem claim1_completion_requires_embeddings :
    ∀ (content : String) (o : EmbedOracle),
      ((finalDocState content o).processingStatus = ProcessingStatus.completed →
        0 < (finalDocState content o).embeddingCount) ∧
      (AdminController.splitTextIntoChunks content 800 ≠ [] →
        (∀ b, o.batchOk b = none) →
        (∀ i, o.chunkOk i = false) →
        finalDocState content o =
          ⟨ProcessingStatus.failed,
            (AdminController.splitTextIntoChunks content 800).length, 0,
            some "Failed to create any embeddings"⟩) := by
  intro content o
  by_cases hn : (AdminController.splitTextIntoChunks content 800).length = 0
  · have hfinal : finalDocState content o =
        ⟨ProcessingStatus.failed, 0, 0,
          some "No content chunks generated from document"⟩ := by
      simp only [finalDocState, processDocumentAsync]
      rw [if_pos hn]
      rfl
    constructor
    · intro hcomp
      rw [hfinal] at hcomp
      exact absurd hcomp (by simp)
    · intro hne _ _
      exact absurd (List.length_eq_zero.mp hn) hne
  · by_cases hr0 : (processChunksFrom o
        (AdminController.splitTextIntoChunks content 800).length 0 0).1 = 0
    · have hfinal : finalDocState content o =
          ⟨ProcessingStatus.failed,
            (AdminController.splitTextIntoChunks content 800).length, 0,
            some "Failed to create any embeddings"⟩ := by
        simp only [finalDocState, processDocumentAsync]
        rw [if_neg hn, if_pos hr0]
        exact getLastD_trace _ _ _ _ _ _
      constructor
      · intro hcomp
        rw [hfinal] at hcomp
        exact absurd hcomp (by simp)
      · intro _ _ _
        exact hfinal
    · have hfinal : finalDocState content o =
          ⟨ProcessingStatus.completed,
            (AdminController.splitTextIntoChunks content 800).length,
            (processChunksFrom o
              (AdminController.splitTextIntoChunks content 800).length 0 0).1,
            none⟩ := by
        simp only [finalDocState, processDocumentAsync]
        rw [if_neg hn, if_neg hr0]
        exact getLastD_trace _ _ _ _ _ _
      constructor
      · intro _
        rw [hfinal]
        exact Nat.pos_of_ne_zero hr0
      · intro _ hball hcall
        have := processChunksFrom_all_fail o
          (AdminController.splitTextIntoChunks content 800).length hball hcall
          (AdminController.splitTextIntoChunks content 800).length 0 0 (by omega)
        rw [this] at hr0
        exact absurd rfl hr0

/-- C1 witness: a two-word document processed against an oracle on which
every batch call and every per-chunk fallback fails. -/
theorem claim1_witness :
    finalDocState "hello world" ⟨fun _ => none, fun _ => false⟩ =
      ⟨ProcessingStatus.failed,
        (AdminController.splitTextIntoChunks "hello world" 800).length, 0,
        some "Failed to create any embeddings"⟩ :=
  (claim1_completion_requires_embeddings "hello world"
      ⟨fun _ => none, fun _ => false⟩).2
    (by decide) (fun _ => rfl) (fun _ => rfl)

/-! ### C7 — progress monotonicity of `embeddingCount` -/

/-- Gluing the save-trace chain with the final save. -/
theorem chainCounts (r2 : List Nat) (r1 cf : Nat)
    (h1 : List.Chain' (· ≤ ·) (0 :: r2))
    (hl : (0 :: r2).getLast? = some r1) (hle : r1 ≤ cf) :
    List.Chain' (· ≤ ·) (0 :: 0 :: 0 :: (r2 ++ [cf])) := by
  have happ : List.Chain' (· ≤ ·) ((0 :: r2) ++ [cf]) := by
    refine List.Chain'.append h1 (List.chain'_singleton _) ?_
    intro x hx y hy
    rw [hl] at hx
    simp only [Option.mem_def, Option.some_inj] at hx
    simp only [List.head?_cons, Option.mem_def, Option.some_inj] at hy
    subst hx
    subst hy
    exact hle
  exact List.chain'_cons.mpr ⟨le_refl 0, List.chain'_cons.mpr ⟨le_refl 0, happ⟩⟩

/-- C7: along the sequence of states saved by `processDocumentAsync` (the
states visible to `getUploadStatus` polls), `embeddingCount` never
decreases — each save writes a value no smaller than the previous one. -/
theorem claim7_progress_monotonic :
    ∀ (content : String) (o : EmbedOracle),
      List.Chain' (fun a b => a.embeddingCount ≤ b.embeddingCount)
        (processDocumentAsync content o) := by
  intro content o
  refine (List.chain'_map DocState.embeddingCount).mp ?_
  simp only [processDocumentAsync]
  by_cases hn : (AdminController.splitTextIntoChunks content 800).length = 0
  · rw [if_pos hn]
    simp only [List.map_cons, List.map_nil]
    exact List.chain'_cons.mpr ⟨le_refl 0,
      List.chain'_cons.mpr ⟨le_refl 0, List.chain'_singleton _⟩⟩
  · have hchain := processChunksFrom_chain o
      (AdminController.splitTextIntoChunks content 800).length
      (AdminController.splitTextIntoChunks content 800).length 0 0 (by omega)
    rw [if_neg hn]
    by_cases hr0 : (processChunksFrom o
        (AdminController.splitTextIntoChunks content 800).length 0 0).1 = 0
    · rw [if_pos hr0]
      simp only [List.map_cons, List.map_append, List.map_map, List.map_nil]
      rw [show (DocState.embeddingCount ∘ fun c =>
          (⟨ProcessingStatus.processing,
            (AdminController.splitTextIntoChunks content 800).length, c, none⟩ :
            DocState)) = fun c : Nat => c from rfl, List.map_id']
      exact chainCounts _ _ 0 hchain.1 hchain.2 (by omega)
    · rw [if_neg hr0]
      simp only [List.map_cons, List.map_append, List.map_map, List.map_nil]
      rw [show (DocState.embeddingCount ∘ fun c =>
          (⟨ProcessingStatus.processing,
            (AdminController.splitTextIntoChunks content 800).length, c, none⟩ :
            DocState)) = fun c : Nat => c from rfl, List.map_id']
      exact chainCounts _ _ _ hchain.1 hchain.2 (le_refl _)

/-! ### C6 — cosine similarity: guard semantics, never throws -/

/-- C6: on any two vectors of the expected dimension (1536),
`cosineSimilarity` never throws: it returns exactly 0 when either norm is
zero (the divide-by-zero guard), and otherwise returns
`dot(a,b) / (‖a‖ * ‖b‖)`. -/
theorem claim6_cosine_similarity_safe :
    ∀ e1 e2 : List ℝ, e1.length = 1536 → e2.length = 1536 →
      ((Real.sqrt (EmbeddingService.sumSquares e1) = 0 ∨
          Real.sqrt (EmbeddingService.sumSquares e2) = 0) →
        EmbeddingService.cosineSimilarity e1 e2 = Except.ok 0) ∧
      (Real.sqrt (EmbeddingService.sumSquares e1) ≠ 0 →
        Real.sqrt (EmbeddingService.sumSquares e2) ≠ 0 →
        EmbeddingService.cosineSimilarity e1 e2 =
          Except.ok (EmbeddingService.dotProduct e1 e2 /
            (Real.sqrt (EmbeddingService.sumSquares e1) *
              Real.sqrt (EmbeddingService.sumSquares e2)))) ∧
      (∃ r, EmbeddingService.cosineSimilarity e1 e2 = Except.ok r) := by
  intro e1 e2 h1 h2
  have hv1 : EmbeddingService.validateEmbedding e1 = true := by
    simp [EmbeddingService.validateEmbedding, EmbeddingService.getEmbeddingDimension, h1]
  have hv2 : EmbeddingService.validateEmbedding e2 = true := by
    simp [EmbeddingService.validateEmbedding, EmbeddingService.getEmbeddingDimension, h2]
  have hguard : ¬((!EmbeddingService.validateEmbedding e1 ||
      !EmbeddingService.validateEmbedding e2) = true) := by
    rw [hv1, hv2]
    simp
  have hok : ∀ hz : (Real.sqrt (EmbeddingService.sumSquares e1) = 0 ∨
      Real.sqrt (EmbeddingService.sumSquares e2) = 0),
      EmbeddingService.cosineSimilarity e1 e2 = Except.ok 0 := by
    intro hz
    simp only [EmbeddingService.cosineSimilarity]
    rw [if_neg hguard, if_pos hz]
  have hok2 : Real.sqrt (EmbeddingService.sumSquares e1) ≠ 0 →
      Real.sqrt (EmbeddingService.sumSquares e2) ≠ 0 →
      EmbeddingService.cosineSimilarity e1 e2 =
        Except.ok (EmbeddingService.dotProduct e1 e2 /
          (Real.sqrt (EmbeddingService.sumSquares e1) *
            Real.sqrt (EmbeddingService.sumSquares e2))) := by
    intro hz1 hz2
    simp only [EmbeddingService.cosineSimilarity]
    rw [if_neg hguard, if_neg (by push_neg; exact ⟨hz1, hz2⟩)]
  refine ⟨hok, hok2, ?_⟩
  by_cases hz : Real.sqrt (EmbeddingService.sumSquares e1) = 0 ∨
      Real.sqrt (EmbeddingService.sumSquares e2) = 0
  · exact ⟨0, hok hz⟩
  · push_neg at hz
    exact ⟨_, hok2 hz.1 hz.2⟩

/-- C6 witness: the all-zero vector of dimension 1536 against itself — both
norms are 0 and the guard returns similarity 0 instead of dividing by
zero. -/
theorem claim6_witness :
    EmbeddingService.cosineSimilarity (List.replicate 1536 (0:ℝ))
      (List.replicate 1536 (0:ℝ)) = Except.ok 0 := by
  have hz : Real.sqrt (EmbeddingService.sumSquares (List.replicate 1536 (0:ℝ))) = 0 := by
    have hs : EmbeddingService.sumSquares (List.replicate 1536 (0:ℝ)) = 0 := by
      unfold EmbeddingService.sumSquares
      rw [List.map_replicate, zero_mul, List.sum_replicate, smul_zero]
    rw [hs, Real.sqrt_zero]
  exact (claim6_cosine_similarity_safe (List.replicate 1536 (0:ℝ))
    (List.replicate 1536 (0:ℝ)) (List.length_replicate 1536 0)
    (List.length_replicate 1536 0)).1 (Or.inl hz)

/-! ### C3 — dimension mismatch in the ranker -/

/-- A candidate whose vector length differs from the expected 1536 makes
`cosineSimilarity` throw, and the `embeddings.map` step of
`findSimilarDocuments` catches that error and scores the candidate 0. -/
theorem scoreCandidate_invalid (q : List ℝ) (e : EmbeddingRecord)
    (h : e.embedding.length ≠ 1536) :
    EmbeddingService.cosineSimilarity q e.embedding =
      Except.error "Invalid embeddings provided" ∧
    SimilarityService.scoreCandidate q e = (e, 0) := by
  have hv : EmbeddingService.validateEmbedding e.embedding = false := by
    simp [EmbeddingService.validateEmbedding, EmbeddingService.getEmbeddingDimension, h]
  have herr : EmbeddingService.cosineSimilarity q e.embedding =
      Except.error "Invalid embeddings provided" := by
    simp only [EmbeddingService.cosineSimilarity]
    rw [if_pos (by rw [hv]; simp)]
  exact ⟨herr, by simp only [SimilarityService.scoreCandidate, herr]⟩

/-- C3 counterexample: a stored candidate with a 3-dimensional vector against
a valid 1536-dimensional query, with `minSimilarity = 0`: the ranker does not
propagate the dimension-mismatch error — it returns the candidate as a normal
result with similarity 0 (for positive thresholds the candidate is silently
dropped instead). -/
theorem claim3_counterexample :
    SimilarityService.findSimilarDocuments ((1:ℝ) :: List.replicate 1535 0)
      [⟨1, "bad", [1, 2, 3]⟩] 5 0 = [(⟨1, "bad", [1, 2, 3]⟩, 0)] := by
  have h := scoreCandidate_invalid ((1:ℝ) :: List.replicate 1535 0)
    ⟨1, "bad", [1, 2, 3]⟩ (by decide)
  have hsim : SimilarityService.similarities ((1:ℝ) :: List.replicate 1535 0)
      [⟨1, "bad", [1, 2, 3]⟩] = [(⟨1, "bad", [1, 2, 3]⟩, 0)] := by
    simp only [SimilarityService.similarities, List.map_cons, List.map_nil, h.2]
  have hfil : SimilarityService.filteredResults ((1:ℝ) :: List.replicate 1535 0)
      [⟨1, "bad", [1, 2, 3]⟩] 0 = [(⟨1, "bad", [1, 2, 3]⟩, 0)] := by
    simp only [SimilarityService.filteredResults, hsim, List.filter_cons, List.filter_nil]
    rw [if_pos (by rw [decide_eq_true (le_refl (0:ℝ))])]
  simp only [SimilarityService.findSimilarDocuments, SimilarityService.sortedResults, hfil,
    List.mergeSort_singleton]
  rw [List.take_of_length_le (by simp)]

/-- C3 (amended): a candidate vector of the wrong dimension causes
`cosineSimilarity` to throw a hard error, but `findSimilarDocuments` catches
it per candidate and silently coerces the candidate to similarity 0; no error
reaches the ranker output. -/
theorem claim3_mismatch_coerced_to_zero :
    ∀ (queryEmbedding : List ℝ) (e : EmbeddingRecord),
      e.embedding.length ≠ 1536 →
      (∃ msg, EmbeddingService.cosineSimilarity queryEmbedding e.embedding =
        Except.error msg) ∧
      SimilarityService.scoreCandidate queryEmbedding e = (e, 0) := by
  intro q e h
  have hh := scoreCandidate_invalid q e h
  exact ⟨⟨_, hh.1⟩, hh.2⟩

/-- C3 witness: the amended statement applied to a 2-dimensional stored
vector. -/
theorem claim3_witness :
    (∃ msg, EmbeddingService.cosineSimilarity ((1:ℝ) :: List.replicate 1535 0)
      (⟨2, "short", [1, 2]⟩ : EmbeddingRecord).embedding = Except.error msg) ∧
    SimilarityService.scoreCandidate ((1:ℝ) :: List.replicate 1535 0)
      ⟨2, "short", [1, 2]⟩ = (⟨2, "short", [1, 2]⟩, 0) :=
  claim3_mismatch_coerced_to_zero ((1:ℝ) :: List.replicate 1535 0)
    ⟨2, "short", [1, 2]⟩ (by decide)

/-! ### C5 — filtering, ranking and truncation invariants -/

/-- In a `Pairwise R` list, every element kept by `take n` is `R`-related to
every element removed by `drop n`. -/
theorem pairwise_take_drop {α : Type} {R : α → α → Prop} :
    ∀ (l : List α) (n : Nat), l.Pairwise R →
      ∀ x ∈ l.take n, ∀ y ∈ l.drop n, R x y := by
  intro l
  induction l with
  | nil =>
    intro n _ x hx
    simp at hx
  | cons a t ih =>
    intro n hp x hx y hy
    cases n with
    | zero => simp at hx
    | succ n' =>
      rw [List.take_succ_cons] at hx
      rw [List.drop_succ_cons] at hy
      rcases List.mem_cons.mp hx with rfl | hxt
      · exact (List.pairwise_cons.mp hp).1 y (List.drop_subset _ _ hy)
      · exact ih n' (List.pairwise_cons.mp hp).2 x hxt y hy

/-- Two distinct members of a list occur in one of the two orders. -/
theorem sublist_pair_or {α : Type} :
    ∀ (l : List α) (a b : α), a ∈ l → b ∈ l → a ≠ b →
      [a, b].Sublist l ∨ [b, a].Sublist l := by
  intro l
  induction l with
  | nil =>
    intro a b ha
    simp at ha
  | cons x t ih =>
    intro a b ha hb hab
    rcases List.mem_cons.mp ha with rfl | hat
    · have hbt : b ∈ t := by
        rcases List.mem_cons.mp hb with h | h
        · exact absurd h.symm hab
        · exact h
      exact Or.inl (List.Sublist.cons₂ _ (List.singleton_sublist.mpr hbt))
    · rcases List.mem_cons.mp hb with rfl | hbt
      · exact Or.inr (List.Sublist.cons₂ _ (List.singleton_sublist.mpr hat))
      · rcases ih a b hat hbt hab with h | h
        · exact Or.inl (h.cons x)
        · exact Or.inr (h.cons x)

/-- In a duplicate-free list, two distinct elements cannot occur in both
orders. -/
theorem not_both_orders {α : Type} :
    ∀ (l : List α), l.Nodup → ∀ a b : α, a ≠ b →
      [a, b].Sublist l → [b, a].Sublist l → False := by
  intro l
  induction l with
  | nil =>
    intro _ a b _ h1 _
    exact absurd h1 (by simp)
  | cons x t ih =>
    intro hnd a b hab h1 h2
    cases h1 with
    | cons _ h1' =>
      cases h2 with
      | cons _ h2' => exact ih (List.nodup_cons.mp hnd).2 a b hab h1' h2'
      | cons₂ _ h2' =>
        exact absurd (h1'.subset (by simp)) (List.nodup_cons.mp hnd).1
    | cons₂ _ h1' =>
      cases h2 with
      | cons _ h2' =>
        exact absurd (h2'.subset (by simp)) (List.nodup_cons.mp hnd).1
      | cons₂ _ h2' =>
        exact hab rfl

/-- C5: the output of `findSimilarDocuments` (1) contains only entries with
similarity at least `minSimilarity`, (2) is sorted in descending order of
similarity, (3) holds at most `limit` entries, (4) is the top of the ranking:
any filtered candidate left out scores no higher than every returned entry
(truncation happens after filtering and sorting), and (5) is stable: entries
with equal similarity appear in the order in which the candidates were
scored. -/
theorem claim5_ranking_invariants :
    ∀ (q : List ℝ) (cands : List EmbeddingRecord) (limit : Nat) (minSim : ℝ),
      (∀ p ∈ SimilarityService.findSimilarDocuments q cands limit minSim,
        minSim ≤ p.2) ∧
      List.Pairwise (fun a b => b.2 ≤ a.2)
        (SimilarityService.findSimilarDocuments q cands limit minSim) ∧
      (SimilarityService.findSimilarDocuments q cands limit minSim).length ≤ limit ∧
      (∀ p ∈ SimilarityService.filteredResults q cands minSim,
        p ∉ SimilarityService.findSimilarDocuments q cands limit minSim →
        ∀ o ∈ SimilarityService.findSimilarDocuments q cands limit minSim,
          p.2 ≤ o.2) ∧
      ((SimilarityService.similarities q cands).Nodup →
        ∀ a b : EmbeddingRecord × ℝ, a.2 = b.2 →
          [a, b].Sublist (SimilarityService.findSimilarDocuments q cands limit minSim) →
          [a, b].Sublist (SimilarityService.similarities q cands)) := by
  intro q cands limit minSim
  have htrans : ∀ (a b c : EmbeddingRecord × ℝ),
      (fun a b : EmbeddingRecord × ℝ => decide (b.2 ≤ a.2)) a b →
      (fun a b : EmbeddingRecord × ℝ => decide (b.2 ≤ a.2)) b c →
      (fun a b : EmbeddingRecord × ℝ => decide (b.2 ≤ a.2)) a c := by
    intro a b c h1 h2
    simp only [decide_eq_true_eq] at h1 h2 ⊢
    exact le_trans h2 h1
  have htotal : ∀ (a b : EmbeddingRecord × ℝ),
      ((fun a b : EmbeddingRecord × ℝ => decide (b.2 ≤ a.2)) a b ||
        (fun a b : EmbeddingRecord × ℝ => decide (b.2 ≤ a.2)) b a) = true := by
    intro a b
    simp only [Bool.or_eq_true, decide_eq_true_eq]
    exact le_total b.2 a.2
  have hsorted : List.Pairwise
      (fun a b : EmbeddingRecord × ℝ => decide (b.2 ≤ a.2) = true)
      (SimilarityService.sortedResults q cands minSim) := by
    simp only [SimilarityService.sortedResults]
    exact List.sorted_mergeSort htrans htotal _
  have hsorted' : List.Pairwise (fun a b : EmbeddingRecord × ℝ => b.2 ≤ a.2)
      (SimilarityService.sortedResults q cands minSim) :=
    hsorted.imp fun h => decide_eq_true_eq.mp h
  have hout_sub : (SimilarityService.findSimilarDocuments q cands limit minSim).Sublist
      (SimilarityService.sortedResults q cands minSim) := by
    simp only [SimilarityService.findSimilarDocuments]
    exact List.take_sublist _ _
  have hperm : (SimilarityService.sortedResults q cands minSim).Perm
      (SimilarityService.filteredResults q cands minSim) := by
    simp only [SimilarityService.sortedResults]
    exact List.mergeSort_perm _ _
  refine ⟨?_, ?_, ?_, ?_, ?_⟩
  · intro p hp
    have hpf : p ∈ SimilarityService.filteredResults q cands minSim :=
      (hperm.mem_iff).mp (hout_sub.subset hp)
    simp only [SimilarityService.filteredResults] at hpf
    exact decide_eq_true_eq.mp (List.mem_filter.mp hpf).2
  · exact List.Pairwise.sublist hout_sub hsorted'
  · simp only [SimilarityService.findSimilarDocuments]
    rw [List.length_take]
    exact min_le_left _ _
  · intro p hpf hpout o ho
    have hps : p ∈ SimilarityService.sortedResults q cands minSim :=
      (hperm.mem_iff).mpr hpf
    have hsplit := List.take_append_drop limit
      (SimilarityService.sortedResults q cands minSim)
    have hmem : p ∈ (SimilarityService.sortedResults q cands minSim).take limit ++
        (SimilarityService.sortedResults q cands minSim).drop limit := by
      rw [hsplit]
      exact hps
    simp only [SimilarityService.findSimilarDocuments] at hpout ho
    rcases List.mem_append.mp hmem with h1 | h2
    · exact absurd h1 hpout
    · exact pairwise_take_drop _ limit hsorted' o ho p h2
  · intro hnd a b heq hsub
    have hfilnd : (SimilarityService.filteredResults q cands minSim).Nodup := by
      simp only [SimilarityService.filteredResults]
      exact hnd.filter _
    have hsortnd : (SimilarityService.sortedResults q cands minSim).Nodup :=
      (hperm.nodup_iff).mpr hfilnd
    have hsubs : ([a, b] : List (EmbeddingRecord × ℝ)).Sublist
        (SimilarityService.sortedResults q cands minSim) :=
      hsub.trans hout_sub
    have hpairnd : ([a, b] : List (EmbeddingRecord × ℝ)).Nodup :=
      List.Nodup.sublist hsubs hsortnd
    have hab : a ≠ b := fun hh =>
      (List.nodup_cons.mp hpairnd).1 (by rw [hh]; exact List.mem_singleton_self b)
    have haf : a ∈ SimilarityService.filteredResults q cands minSim :=
      (hperm.mem_iff).mp (hsubs.subset (by simp))
    have hbf : b ∈ SimilarityService.filteredResults q cands minSim :=
      (hperm.mem_iff).mp (hsubs.subset (by simp))
    have hfilsub : (SimilarityService.filteredResults q cands minSim).Sublist
        (SimilarityService.similarities q cands) := by
      simp only [SimilarityService.filteredResults]
      exact List.filter_sublist _
    rcases sublist_pair_or _ a b haf hbf hab with hgood | hbad
    · exact hgood.trans hfilsub
    · have hba_le : decide (a.2 ≤ b.2) = true := decide_eq_true (le_of_eq heq)
      have hsba : ([b, a] : List (EmbeddingRecord × ℝ)).Sublist
          (SimilarityService.sortedResults q cands minSim) := by
        simp only [SimilarityService.sortedResults]
        exact List.pair_sublist_mergeSort htrans htotal hba_le hbad
      exact (not_both_orders _ hsortnd a b hab hsubs hsba).elim

/-- C5 witness: a single zero-vector candidate, `limit = 5`,
`minSimilarity = 0`. -/
theorem claim5_witness :
    (SimilarityService.findSimilarDocuments ((0:ℝ) :: List.replicate 1535 0)
        [⟨1, "a", List.replicate 1536 (0:ℝ)⟩] 5 0).length ≤ 5 ∧
    List.Pairwise (fun a b => b.2 ≤ a.2)
      (SimilarityService.findSimilarDocuments ((0:ℝ) :: List.replicate 1535 0)
        [⟨1, "a", List.replicate 1536 (0:ℝ)⟩] 5 0) :=
  ⟨(claim5_ranking_invariants ((0:ℝ) :: List.replicate 1535 0)
      [⟨1, "a", List.replicate 1536 (0:ℝ)⟩] 5 0).2.2.1,
    (claim5_ranking_invariants ((0:ℝ) :: List.replicate 1535 0)
      [⟨1, "a", List.replicate 1536 (0:ℝ)⟩] 5 0).2.1⟩
